import Mathlib

/-!
Shallow embedding of the protocol cores of the xx-url networking stack,
with theorems settling the frozen claims about it.

Bytes are modelled as `Nat` (values < 256 where produced by the code),
machine integers as `Nat` with explicit bounds (`u64Max`, `% 2 ^ 32`)
where overflow matters, fallible code as `Except`.
-/

/-! ## Byte helpers (big-endian integer codecs used by the wire formats) -/

def u16BeBytes (n : Nat) : List Nat := [n / 2 ^ 8 % 256, n % 256]

def u32BeBytes (n : Nat) : List Nat :=
  [n / 2 ^ 24 % 256, n / 2 ^ 16 % 256, n / 2 ^ 8 % 256, n % 256]

def u64BeBytes (n : Nat) : List Nat :=
  [n / 2 ^ 56 % 256, n / 2 ^ 48 % 256, n / 2 ^ 40 % 256, n / 2 ^ 32 % 256,
   n / 2 ^ 24 % 256, n / 2 ^ 16 % 256, n / 2 ^ 8 % 256, n % 256]

def readU16Be (input : List Nat) : Option (Nat × List Nat) :=
  match input with
  | a :: b :: rest => some (a * 2 ^ 8 + b, rest)
  | _ => none

def readU32Be (input : List Nat) : Option (Nat × List Nat) :=
  match input with
  | a :: b :: c :: d :: rest =>
      some (a * 2 ^ 24 + b * 2 ^ 16 + c * 2 ^ 8 + d, rest)
  | _ => none

def readU64Be (input : List Nat) : Option (Nat × List Nat) :=
  match input with
  | a :: b :: c :: d :: e :: f :: g :: h :: rest =>
      some (a * 2 ^ 56 + b * 2 ^ 48 + c * 2 ^ 40 + d * 2 ^ 32 +
            e * 2 ^ 24 + f * 2 ^ 16 + g * 2 ^ 8 + h, rest)
  | _ => none

def u64Max : Nat := 2 ^ 64 - 1

/-! ## WebSocket opcodes (src/ws/wire.rs) -/

inductive Op where
  | invalid
  | continuation
  | text
  | binary
  | close
  | ping
  | pong
deriving DecidableEq, Repr

instance : Fintype Op :=
  ⟨⟨{.invalid, .continuation, .text, .binary, .close, .ping, .pong}, by decide⟩,
   by intro x; cases x <;> decide⟩

/-- Rust `matches!(self, Self::Ping | Self::Pong | Self::Close)`. -/
def Op.isControl : Op → Bool
  | .ping | .pong | .close => true
  | _ => false

/-- Rust `self.op as u8` on the `repr(i8)` enum: `Invalid = -1` casts to 255;
the other discriminants are their wire values. -/
def Op.toU8 : Op → Nat
  | .invalid => 255
  | .continuation => 0
  | .text => 1
  | .binary => 2
  | .close => 8
  | .ping => 9
  | .pong => 10

/-- `Op::from_u8(n).unwrap_or_default()` (num_derive FromPrimitive; the
default variant is `Invalid`). -/
def Op.fromWire (n : Nat) : Op :=
  if n = 0 then .continuation
  else if n = 1 then .text
  else if n = 2 then .binary
  else if n = 8 then .close
  else if n = 9 then .ping
  else if n = 10 then .pong
  else .invalid

/-! ## WebSocket frame header codec (src/ws/stream.rs, FrameHeader) -/

structure FrameHeader where
  fin : Bool
  op : Op
  mask : Option Nat
  len : Nat
deriving DecidableEq, Repr

/-- `encode_len`: first result is the 7-bit length field, second the
extended-length bytes. -/
def encodeLen (len : Nat) : Nat × List Nat :=
  if len < 0x7e then (len, [])
  else if len ≤ 0xffff then (0x7e, u16BeBytes len)
  else (0x7f, u64BeBytes len)

/-- `FrameHeader::write`: two base bytes `fin(1)|resv(3)|op(4)` and
`masked(1)|len(7)`, then the extended length, then the 4-byte big-endian
mask key when masked.  The pnet `u4` setter keeps the low 4 bits of
`op as u8`. -/
def FrameHeader.write (h : FrameHeader) : List Nat :=
  let el := encodeLen h.len
  let b0 := (if h.fin then 128 else 0) + h.op.toU8 % 16
  let b1 := (if h.mask.isSome then 128 else 0) + el.1
  [b0, b1] ++ el.2 ++ (match h.mask with | some m => u32BeBytes m | none => [])

inductive IoError where
  | unexpectedEof
deriving DecidableEq, Repr

/-- `decode_length`: a 7-bit value below 0x7e stands for itself, 0x7e pulls a
big-endian u16, 0x7f pulls a big-endian u64. -/
def decodeLength (len7 : Nat) (rest : List Nat) : Option (Nat × List Nat) :=
  if len7 < 0x7e then some (len7, rest)
  else if len7 = 0x7e then readU16Be rest
  else readU64Be rest

/-- `FrameHeader::read`: `Ok none` is a clean EOF before the first header
byte (`try_read_type` returning `None`); a truncated header is an error. -/
def FrameHeader.read (input : List Nat) :
    Except IoError (Option (FrameHeader × List Nat)) :=
  match input with
  | [] => .ok none
  | [_] => .error .unexpectedEof
  | b0 :: b1 :: rest =>
    let fin := decide (b0 / 128 % 2 = 1)
    let op := Op.fromWire (b0 % 16)
    let masked := decide (b1 / 128 % 2 = 1)
    let len7 := b1 % 128
    match decodeLength len7 rest with
    | none => .error .unexpectedEof
    | some (len, rest) =>
      if masked then
        match readU32Be rest with
        | none => .error .unexpectedEof
        | some (m, rest) =>
            .ok (some (⟨fin, op, some m, len⟩, rest))
      else .ok (some (⟨fin, op, none, len⟩, rest))

/-! ## Masking (src/ws/mod.rs, `mask`)

The source splits the buffer into an unaligned prefix, a u32-aligned middle
and a tail; the prefix and tail XOR each byte with the top byte of the key
and rotate the key left by 8, the middle XORs whole u32 words with the
big-endian key (which leaves the rotating key untouched; four rotations are
the identity, so the phases agree).  The observable function is this
byte-at-a-time recursion with the rotating key. -/

/-- u32 `rotate_left(8)`. -/
def rotl8 (m : Nat) : Nat := m % 2 ^ 24 * 256 + m / 2 ^ 24 % 256

def wsMask : List Nat → Nat → List Nat
  | [], _ => []
  | b :: rest, m => (b ^^^ m / 2 ^ 24 % 256) :: wsMask rest (rotl8 m)

theorem rotl8_bytes (a b c d : Nat) (ha : a < 256) (hb : b < 256)
    (hc : c < 256) (hd : d < 256) :
    rotl8 (a * 2 ^ 24 + b * 2 ^ 16 + c * 2 ^ 8 + d) =
      b * 2 ^ 24 + c * 2 ^ 16 + d * 2 ^ 8 + a := by
  unfold rotl8; omega

/-- Four byte-rotations of a u32 key are the identity: the aligned middle
loop of the source, which XORs four bytes at a time without rotating,
computes the same bytes as four steps of `wsMask`. -/
theorem rotl8_four (m : Nat) (h : m < 2 ^ 32) :
    rotl8 (rotl8 (rotl8 (rotl8 m))) = m := by
  obtain ⟨a, b, c, d, ha, hb, hc, hd, rfl⟩ :
      ∃ a b c d, a < 256 ∧ b < 256 ∧ c < 256 ∧ d < 256 ∧
        m = a * 2 ^ 24 + b * 2 ^ 16 + c * 2 ^ 8 + d := by
    refine ⟨m / 2 ^ 24, m / 2 ^ 16 % 256, m / 2 ^ 8 % 256, m % 256,
      ?_, ?_, ?_, ?_, ?_⟩ <;> omega
  rw [rotl8_bytes a b c d ha hb hc hd, rotl8_bytes b c d a hb hc hd ha,
    rotl8_bytes c d a b hc hd ha hb, rotl8_bytes d a b c hd ha hb hc]

/-! ## WebSocket shared close state (src/ws/stream.rs, `Shared`) -/

inductive Shutdown where
  | read
  | write
  | both
deriving DecidableEq, Repr

instance : Fintype Shutdown :=
  ⟨⟨{.read, .write, .both}, by decide⟩, by intro x; cases x <;> decide⟩

/-- `Shared::can_read`: `!close_state.is_some_and(|s| s != Shutdown::Write)`. -/
def canRead (s : Option Shutdown) : Bool :=
  !(match s with | some st => decide (st ≠ .write) | none => false)

/-- `Shared::can_write`: `!close_state.is_some_and(|s| s != Shutdown::Read)`. -/
def canWrite (s : Option Shutdown) : Bool :=
  !(match s with | some st => decide (st ≠ .read) | none => false)

/-- `Shared::should_close`. -/
def shouldClose (s : Option Shutdown) : Bool := s = some .both

/-- `Shared::shutdown`: returns the new `close_state` together with the
boolean result (`true` when the call just promoted the state to `Both`). -/
def shutdownTransition (s : Option Shutdown) (how : Shutdown) :
    Option Shutdown × Bool :=
  match s with
  | some cur => if cur = how then (some cur, false) else (some .both, true)
  | none => (some how, false)

/-- Rank of a close state in the lattice `None ≺ Read, Write ≺ Both`. -/
def closeRank : Option Shutdown → Nat
  | none => 0
  | some .read => 1
  | some .write => 1
  | some .both => 2

/-- Lattice order on close states: reflexivity or a strict rank increase
(`Read` and `Write` are incomparable). -/
def closeLe (a b : Option Shutdown) : Prop := a = b ∨ closeRank a < closeRank b

instance (a b : Option Shutdown) : Decidable (closeLe a b) := by
  unfold closeLe; infer_instance

/-! ## WebSocket frame sending (src/ws/stream.rs, `Writer::send_frame`) -/

structure BorrowedFrame where
  op : Op
  closeCode : Nat
  payload : List Nat
  fin : Bool
deriving DecidableEq, Repr

inductive WsError where
  | shutdownErr
  | userInvalidControlFrame
  | dataTypeMismatch
deriving DecidableEq, Repr

/-- `Writer::send_frame`, up to and including the bytes pushed to the
stream: checks `can_write`, builds the header (`len` is the payload
length, clients use an all-zero mask), enforces the control-frame length
bound (`0x7d - 2` for `Close`), rewrites data-frame opcodes to
`Continuation` mid-message and tracks `last_sent_message_op`, then writes
the encoded header, the 2-byte big-endian close code for `Close` frames,
and the payload; a `Close` also advances the shared close state via
`Shared::shutdown` (the clean-close handshake itself is I/O and elided,
its frame bytes are identical).  Returns the wire bytes, the new
`last_sent_message_op` and the new close state. -/
def sendFrame (isClient : Bool) (closeState : Option Shutdown)
    (lastOp : Option Op) (frame : BorrowedFrame) :
    Except WsError (List Nat × Option Op × Option Shutdown) :=
  if ¬ canWrite closeState then .error .shutdownErr
  else
    let header0 : FrameHeader :=
      { fin := frame.fin, op := frame.op,
        mask := if isClient then some 0 else none,
        len := frame.payload.length }
    if header0.op.isControl then
      let additional := if header0.op = .close then 2 else 0
      if header0.len > 0x7d - additional then .error .userInvalidControlFrame
      else
        let bytes := header0.write ++
          (if header0.op = .close then u16BeBytes frame.closeCode else []) ++
          frame.payload
        let closeState' :=
          if frame.op = .close then (shutdownTransition closeState .write).1
          else closeState
        .ok (bytes, lastOp, closeState')
    else
      match lastOp with
      | some op =>
        if op ≠ header0.op then .error .dataTypeMismatch
        else
          let header1 := { header0 with op := Op.continuation }
          let lastOp' := if header1.fin then none else lastOp
          .ok (header1.write ++ frame.payload, lastOp', closeState)
      | none =>
        let lastOp' := if header0.fin then none else some header0.op
        .ok (header0.write ++ frame.payload, lastOp', closeState)

/-! ## Round-trip lemmas for the frame header codec -/

theorem readU16Be_bytes (n : Nat) (rest : List Nat) (h : n < 2 ^ 16) :
    readU16Be (u16BeBytes n ++ rest) = some (n, rest) := by
  simp only [u16BeBytes, readU16Be, List.cons_append, List.nil_append,
    Option.some.injEq, Prod.mk.injEq]
  exact ⟨by omega, trivial⟩

theorem readU32Be_bytes (n : Nat) (rest : List Nat) (h : n < 2 ^ 32) :
    readU32Be (u32BeBytes n ++ rest) = some (n, rest) := by
  simp only [u32BeBytes, readU32Be, List.cons_append, List.nil_append,
    Option.some.injEq, Prod.mk.injEq]
  exact ⟨by omega, trivial⟩

theorem readU64Be_bytes (n : Nat) (rest : List Nat) (h : n < 2 ^ 64) :
    readU64Be (u64BeBytes n ++ rest) = some (n, rest) := by
  simp only [u64BeBytes, readU64Be, List.cons_append, List.nil_append,
    Option.some.injEq, Prod.mk.injEq]
  exact ⟨by omega, trivial⟩

theorem Op.fromWire_toU8 (op : Op) : Op.fromWire (op.toU8 % 16) = op := by
  cases op <;> rfl

theorem byteFields (finb maskb : Bool) (o len7 : Nat) (ho : o < 16)
    (hl : len7 < 128) :
    decide (((if finb then 128 else 0) + o) / 128 % 2 = 1) = finb ∧
    ((if finb then 128 else 0) + o) % 16 = o ∧
    decide (((if maskb then 128 else 0) + len7) / 128 % 2 = 1) = maskb ∧
    ((if maskb then 128 else 0) + len7) % 128 = len7 := by
  cases finb <;> cases maskb <;>
    simp only [if_true, if_false, Bool.false_eq_true, decide_eq_true_eq,
      decide_eq_false_iff_not] <;>
    refine ⟨by omega, by omega, by omega, by omega⟩

theorem encodeLen_fst_lt (len : Nat) : (encodeLen len).1 < 128 := by
  unfold encodeLen
  split_ifs with h1 h2
  · show len < 128
    omega
  · show 0x7e < 128
    norm_num
  · show 0x7f < 128
    norm_num

theorem decodeLength_encodeLen (len : Nat) (hlen : len < 2 ^ 64)
    (tail : List Nat) :
    decodeLength (encodeLen len).1 ((encodeLen len).2 ++ tail) =
      some (len, tail) := by
  by_cases h1 : len < 0x7e
  · simp [encodeLen, decodeLength, h1]
  · by_cases h2 : len ≤ 0xffff
    · simp only [encodeLen, if_neg h1, if_pos h2, decodeLength]
      norm_num [readU16Be_bytes len tail (by omega)]
    · simp only [encodeLen, if_neg h1, if_neg h2, decodeLength]
      norm_num [readU64Be_bytes len tail hlen]

theorem frameHeader_read_write (fh : FrameHeader) (rest : List Nat)
    (hlen : fh.len < 2 ^ 64) (hmask : ∀ m, fh.mask = some m → m < 2 ^ 32) :
    FrameHeader.read (fh.write ++ rest) = .ok (some (fh, rest)) := by
  obtain ⟨fin, op, mask, len⟩ := fh
  have ho : op.toU8 % 16 < 16 := Nat.mod_lt _ (by norm_num)
  obtain ⟨hf, hop, -, -⟩ := byteFields fin false (op.toU8 % 16) 0 ho
    (by norm_num)
  have hlt := encodeLen_fst_lt len
  cases mask with
  | none =>
    have hdiv : (encodeLen len).1 / 128 = 0 := Nat.div_eq_of_lt hlt
    have hmod : (encodeLen len).1 % 128 = (encodeLen len).1 :=
      Nat.mod_eq_of_lt hlt
    simp [FrameHeader.write, FrameHeader.read, List.append_assoc, hmod, hdiv,
      decodeLength_encodeLen len hlen rest, hf, hop, Op.fromWire_toU8]
  | some m =>
    have hmod : (128 + (encodeLen len).1) % 128 = (encodeLen len).1 := by
      omega
    have hdiv : (128 + (encodeLen len).1) / 128 % 2 = 1 := by omega
    simp [FrameHeader.write, FrameHeader.read, List.append_assoc, hmod, hdiv,
      decodeLength_encodeLen len hlen (u32BeBytes m ++ rest), hf, hop,
      Op.fromWire_toU8, readU32Be_bytes m rest (hmask m rfl)]
    omega

theorem wsMask_wsMask (p : List Nat) (k : Nat) : wsMask (wsMask p k) k = p := by
  induction p generalizing k with
  | nil => rfl
  | cons b rest ih =>
    simp only [wsMask, List.cons.injEq]
    exact ⟨Nat.xor_cancel_right _ _, ih (rotl8 k)⟩

/-- Claim C4: decoding the encoding of a well-formed WebSocket frame returns
the same frame.  `FrameHeader::read` applied to the bytes produced by
`FrameHeader::write` recovers the same `(fin, op, mask, len)` and leaves the
rest of the stream untouched, and applying the 4-byte XOR mask on encode and
again on decode recovers the original payload. -/
theorem ws_frame_roundtrip (fh : FrameHeader) (rest payload : List Nat)
    (k : Nat) (hlen : fh.len < 2 ^ 64)
    (hmask : ∀ m, fh.mask = some m → m < 2 ^ 32) :
    FrameHeader.read (fh.write ++ rest) = .ok (some (fh, rest)) ∧
    wsMask (wsMask payload k) k = payload :=
  ⟨frameHeader_read_write fh rest hlen hmask, wsMask_wsMask payload k⟩

theorem ws_frame_roundtrip_witness :
    FrameHeader.read ((⟨true, Op.text, some 5, 300⟩ : FrameHeader).write ++
        [7]) = .ok (some (⟨true, Op.text, some 5, 300⟩, [7])) ∧
    wsMask (wsMask [1, 2, 3] 305419896) 305419896 = [1, 2, 3] :=
  ws_frame_roundtrip ⟨true, Op.text, some 5, 300⟩ [7] [1, 2, 3] 305419896
    (by norm_num)
    (fun m hm => by cases hm; norm_num)

/-- Claim C1 (code bug): the claim, following RFC 6455 and the repository's
own receive path (`Frames::read_frame` extracts the close code from the
first two of `len` payload bytes, and `send_frame` budgets `0x7d - 2` for a
`Close`), says the header `len` counts the prepended 2-byte close code.  The
code sets `len` to `frame.payload.len()` and never adds 2, yet still emits
the close code after the header: sending `Close(1000, "ab")` on a server
writer produces a header whose `len` field is 2 while 4 bytes of frame body
follow it. -/
theorem close_frame_len_bug :
    sendFrame false none none ⟨Op.close, 1000, [97, 98], true⟩ =
      .ok ([136, 2, 3, 232, 97, 98], none, some Shutdown.write) ∧
    FrameHeader.read [136, 2, 3, 232, 97, 98] =
      .ok (some (⟨true, Op.close, none, 2⟩, [3, 232, 97, 98])) := by
  constructor
  · rfl
  · rfl

/-- Claim C7: the WebSocket close state only moves upward along the lattice
`None ≺ Read, Write ≺ Both`: every `Shared::shutdown` call either leaves the
state unchanged or promotes it toward `Both`.  `Shared::shutdown` is the only
place that writes `close_state` (stream.rs calls it at EOF, on receiving a
`Close`, and when sending a `Close`), so no operation of the session ever
decreases the state. -/
theorem close_state_monotone :
    ∀ (s : Option Shutdown) (how : Shutdown),
      closeLe s (shutdownTransition s how).1 := by
  decide

/-! ## DNS answer extraction (src/dns/name_server.rs, `NameServer::lookup`) -/

structure DnsRecord where
  name : String
  rclass : Nat
  rtype : Nat
deriving DecidableEq, Repr

structure DnsQuery where
  qname : String
  qclass : Nat
  qtype : Nat
deriving DecidableEq, Repr

structure DnsResponse where
  rcode : Nat
  questions : List DnsQuery
  answers : List DnsRecord
  nameServers : List DnsRecord
  additionalRecords : List DnsRecord
deriving DecidableEq, Repr

inductive DnsError where
  | noData
  | noRecords (queries : List DnsQuery) (soa : Option DnsRecord) (rcode : Nat)
deriving DecidableEq, Repr

/-- A record passes the collection filter of `NameServer::lookup` when its
class and type equal the query's (`QueryClass::CLASS(record.class) ==
query.qclass && QueryType::TYPE(record.rdata.type_code()) == query.qtype`). -/
def recordMatches (q : DnsQuery) (r : DnsRecord) : Bool :=
  r.rclass = q.qclass && r.rtype = q.qtype

/-- Answer extraction of `NameServer::lookup` after the UDP transaction
(rcode 0 is `NoError`): walk answers ++ authority ++ additional, remember in
`has_answer` whether any record bears the query name, collect the records
whose class and type match, and return them when non-empty; otherwise
`NoData` when the name was touched, else `NoRecords` with the SOA taken from
the first authority record. -/
def lookupExtract (q : DnsQuery) (resp : DnsResponse) :
    Except DnsError (List DnsRecord) :=
  let all := resp.answers ++ resp.nameServers ++ resp.additionalRecords
  let hasAnswer := all.any fun r => q.qname = r.name
  let records := all.filter (recordMatches q)
  if resp.rcode = 0 ∧ records ≠ [] then .ok records
  else if resp.rcode = 0 ∧ hasAnswer then .error .noData
  else .error (.noRecords resp.questions resp.nameServers.head? resp.rcode)

/-- Claim C2 counterexample: the claim says a record is collected only if its
name equals the query name; the code collects on a class/type match alone.
A NoError response whose single answer record matches the query's class and
type but bears a different name is returned as the answer set. -/
theorem lookup_name_mismatch_collected :
    lookupExtract ⟨"a.test", 1, 1⟩
        ⟨0, [], [⟨"b.test", 1, 1⟩], [], []⟩ =
      .ok [⟨"b.test", 1, 1⟩] ∧
    ("b.test" : String) ≠ "a.test" := by
  constructor
  · rfl
  · decide

/-- Claim C2 amended: on a NoError response, a record from the answer,
authority, or additional sections is collected into the returned record set
if and only if its class and type equal the query's; the query-name
comparison only decides, when nothing was collected, between `NoData` (some
record bears the query name) and `NoRecords`. -/
theorem lookup_collects_class_type_matches (q : DnsQuery)
    (resp : DnsResponse) (hrc : resp.rcode = 0) :
    (∀ rs, lookupExtract q resp = .ok rs →
      rs = (resp.answers ++ resp.nameServers ++
        resp.additionalRecords).filter (recordMatches q) ∧
      ∀ r, r ∈ rs ↔
        r ∈ resp.answers ++ resp.nameServers ++ resp.additionalRecords ∧
          recordMatches q r = true) ∧
    ((∃ rs, lookupExtract q resp = .ok rs) ↔
      (resp.answers ++ resp.nameServers ++
        resp.additionalRecords).filter (recordMatches q) ≠ []) := by
  unfold lookupExtract
  dsimp only
  constructor
  · intro rs h
    split_ifs at h with h1 h2
    · cases h
      exact ⟨rfl, fun r => List.mem_filter.trans (by tauto)⟩
  · constructor
    · rintro ⟨rs, h⟩
      split_ifs at h with h1 h2
      · exact h1.2
    · intro hne
      refine ⟨(resp.answers ++ resp.nameServers ++
        resp.additionalRecords).filter (recordMatches q), ?_⟩
      rw [if_pos ⟨hrc, hne⟩]

/-! ## HTTP body transfer modes (src/http/body.rs)

Header values are modelled as `List Char`; Rust `str::split(',')` and
`str::trim` are modelled directly on character lists (`trim` restricted to
the whitespace that header values can carry). -/

inductive ChunkedState where
  | size
  | extension (size : Nat)
  | data (remaining : Nat)
  | trailer
deriving DecidableEq, Repr

inductive Transfer where
  | empty
  | connection
  | length (remaining : Nat)
  | chunks (state : ChunkedState)
  | trailers
deriving DecidableEq, Repr

inductive HttpErr where
  | invalidData
  | chunkTooLarge
  | unexpectedEofErr
  | headersTooLong
  | invalidStatusLine
  | unexpectedVersion (v : Nat)
  | invalidUtf8
  | invalidHeaderName
  | invalidHeaderValue
  | invalidRedirectUrl
  | redirectForbidden
  | noConnection
deriving DecidableEq, Repr

/-- Rust `str::split(sep)`: every separator occurrence splits, empty pieces
are kept. -/
def splitOnChar (sep : Char) : List Char → List (List Char)
  | [] => [[]]
  | c :: rest =>
    let r := splitOnChar sep rest
    if c = sep then [] :: r
    else
      match r with
      | h :: t => (c :: h) :: t
      | [] => [[c]]

/-- Whitespace trimmed by Rust `str::trim` within the ASCII range. -/
def isWsChar (c : Char) : Bool :=
  c = ' ' || c = '\t' || c = '\n' || c = '\r' ||
    c.toNat = 11 || c.toNat = 12

def trimStartChars (s : List Char) : List Char := s.dropWhile isWsChar

def trimChars (s : List Char) : List Char :=
  ((s.dropWhile isWsChar).reverse.dropWhile isWsChar).reverse

/-- Rust `u8::to_ascii_lowercase` on a character. -/
def asciiLower (c : Char) : Char :=
  if 'A' ≤ c ∧ c ≤ 'Z' then Char.ofNat (c.toNat + 32) else c

def chunkedToken : List Char := ['c', 'h', 'u', 'n', 'k', 'e', 'd']

def keepAliveToken : List Char := ['k', 'e', 'e', 'p', '-', 'a', 'l', 'i', 'v', 'e']

/-- `u64::from_str_radix(s, 10)`: an optional leading plus sign, then at
least one decimal digit, value within the u64 range. -/
def parseU64Dec (s : List Char) : Option Nat :=
  let chars := if s.head? = some '+' then s.tail else s
  if chars = [] then none
  else if chars.all Char.isDigit then
    let v := chars.foldl (fun acc c => acc * 10 + (c.toNat - 48)) 0
    if v ≤ u64Max then some v else none
  else none

/-- The bodyless test of `Body::new`: method HEAD, or status 204, 304, or
1xx. -/
def bodyless (method : String) (status : Nat) : Bool :=
  method = "HEAD" ||
    (if status = 204 || status = 304 then true
     else decide (100 ≤ status ∧ status < 200))

/-- `Connection: keep-alive` noted for reuse
(`conn.eq_ignore_ascii_case("keep-alive")`). -/
def connReusable (conn : Option (List Char)) : Bool :=
  match conn with
  | some c => c.map asciiLower = keepAliveToken
  | none => false

/-- `Body::new` transfer-mode selection, with the three header lookups
passed as the values of the `transfer-encoding`, `content-length` and
`connection` headers (`None` when absent).  The initial mode is
`Connection`; bodyless responses become `Empty`; otherwise, when a
Transfer-Encoding header exists, its comma-separated tokens are trimmed and
compared byte-for-byte against the string chunked (the first match wins);
otherwise a present Content-Length is parsed as u64 (a parse failure is an
invalid-data error). -/
def bodyNew (method : String) (status : Nat)
    (te cl conn : Option (List Char)) : Except HttpErr (Transfer × Bool) :=
  let transferRes : Except HttpErr Transfer :=
    if bodyless method status then .ok .empty
    else
      match te with
      | some encoding =>
          .ok (if (splitOnChar ',' encoding).any
                  (fun e => trimChars e = chunkedToken)
               then .chunks .size else .connection)
      | none =>
        match cl with
        | some l =>
          match parseU64Dec l with
          | some n => .ok (.length n)
          | none => .error .invalidData
        | none => .ok .connection
  match transferRes with
  | .error e => .error e
  | .ok t => .ok (t, connReusable conn)

/-- Claim C3 counterexample: the claim requires the chunked token comparison
to be case-insensitive; the code compares the trimmed token with
case-sensitive equality.  For a GET with status 200 and a header
`Transfer-Encoding: Chunked` the claim selects `Chunks`, while the code
leaves the mode at `Connection`. -/
theorem body_mode_chunked_case_sensitive :
    bodyNew "GET" 200 (some ['C', 'h', 'u', 'n', 'k', 'e', 'd']) none none =
      .ok (.connection, false) ∧
    ((splitOnChar ',' ['C', 'h', 'u', 'n', 'k', 'e', 'd']).any
      fun e => (trimChars e).map asciiLower = chunkedToken) = true := by
  constructor
  · rfl
  · decide

/-- Claim C3 amended: the transfer mode is selected with this precedence:
`Empty` when the method is HEAD or the status is 204, 304, or 1xx; else,
when a Transfer-Encoding header is present, `Chunks` exactly when one of
its comma-split trimmed tokens equals the string chunked case-sensitively
and `Connection` otherwise (Content-Length is not consulted); else, when
Content-Length is present, `Length(n)` when it parses as u64 and an
invalid-data error when it does not; else `Connection`. -/
theorem body_mode_selection (method : String) (status : Nat)
    (te cl conn : Option (List Char)) :
    (bodyless method status = true →
      bodyNew method status te cl conn = .ok (.empty, connReusable conn)) ∧
    (bodyless method status = false → ∀ enc, te = some enc →
      (((∃ tok ∈ splitOnChar ',' enc, trimChars tok = chunkedToken) →
        bodyNew method status te cl conn =
          .ok (.chunks .size, connReusable conn)) ∧
       ((¬ ∃ tok ∈ splitOnChar ',' enc, trimChars tok = chunkedToken) →
        bodyNew method status te cl conn =
          .ok (.connection, connReusable conn)))) ∧
    (bodyless method status = false → te = none → ∀ l, cl = some l →
      (∀ n, parseU64Dec l = some n →
        bodyNew method status te cl conn =
          .ok (.length n, connReusable conn)) ∧
      (parseU64Dec l = none →
        bodyNew method status te cl conn = .error .invalidData)) ∧
    (bodyless method status = false → te = none → cl = none →
      bodyNew method status te cl conn = .ok (.connection, connReusable conn))
    := by
  refine ⟨?_, ?_, ?_, ?_⟩
  · intro hb
    simp [bodyNew, hb]
  · rintro hb enc rfl
    constructor
    · intro hex
      have hany : ((splitOnChar ',' enc).any
          fun e => trimChars e = chunkedToken) = true := by
        rw [List.any_eq_true]
        obtain ⟨tok, htok, heq⟩ := hex
        exact ⟨tok, htok, by simp [heq]⟩
      simp [bodyNew, hb, hany]
    · intro hex
      have hany : ((splitOnChar ',' enc).any
          fun e => trimChars e = chunkedToken) = false := by
        rw [List.any_eq_false]
        intro tok htok
        simp only [decide_eq_true_eq]
        exact fun heq => hex ⟨tok, htok, heq⟩
      simp [bodyNew, hb, hany]
  · rintro hb rfl l rfl
    constructor
    · intro n hn
      simp [bodyNew, hb, hn]
    · intro hn
      simp [bodyNew, hb, hn]
  · rintro hb rfl rfl
    simp [bodyNew, hb]

theorem body_mode_selection_witness :
    bodyless "POST" 200 = false ∧
    bodyNew "POST" 200
        (some (' ' :: chunkedToken ++ [',', 'g', 'z', 'i', 'p'])) none
        (some ['K', 'e', 'e', 'p', '-', 'A', 'l', 'i', 'v', 'e']) =
      .ok (.chunks .size, true) := by
  refine ⟨by decide, ?_⟩
  have h := ((body_mode_selection "POST" 200
    (some (' ' :: chunkedToken ++ [',', 'g', 'z', 'i', 'p'])) none
    (some ['K', 'e', 'e', 'p', '-', 'A', 'l', 'i', 'v', 'e'])).2.1
    (by decide) _ rfl).1
  rw [h ⟨' ' :: chunkedToken, by decide, by decide⟩]
  rfl

theorem lookup_collects_witness :
    [(⟨"b.test", 1, 1⟩ : DnsRecord)] =
      (([⟨"b.test", 1, 1⟩] : List DnsRecord) ++ [] ++ []).filter
        (recordMatches ⟨"a.test", 1, 1⟩) :=
  ((lookup_collects_class_type_matches ⟨"a.test", 1, 1⟩
      ⟨0, [], [⟨"b.test", 1, 1⟩], [], []⟩ rfl).1
    [⟨"b.test", 1, 1⟩] (by rfl)).1

/-! ## Chunked decoder (src/http/body.rs, `read_chunk_size`,
`read_until_newline`, `read_chunks`, `async_read`)

The buffered reader is a pair (buffer, stream): `fill_amount(n)` moves
bytes from the stream until the buffer holds `n` (or the stream ends) and
returns the number moved, `consume(k)` drops `k` buffered bytes,
`discard()` drops the whole buffer.  Loops that refill are written with a
fuel argument set to more than the stream length, which the refill step
strictly decreases. -/

/-- `slice::iter().position(p)`. -/
def listPosition (p : Nat → Bool) : List Nat → Option Nat
  | [] => none
  | b :: rest => if p b then some 0 else (listPosition p rest).map (· + 1)

/-- `u8::is_ascii_hexdigit`. -/
def isHexDigitByte (b : Nat) : Bool :=
  (48 ≤ b && b ≤ 57) || (97 ≤ b && b ≤ 102) || (65 ≤ b && b ≤ 70)

def hexDigitVal (b : Nat) : Nat :=
  if 48 ≤ b ∧ b ≤ 57 then b - 48
  else if 97 ≤ b ∧ b ≤ 102 then b - 87
  else b - 55

/-- `u64::from_str_radix(_, 16)` on a run of hex digits, before the range
check. -/
def hexValue (ds : List Nat) : Nat :=
  ds.foldl (fun acc d => acc * 16 + hexDigitVal d) 0

/-- `Body::read_chunk_size` loop body: scan the buffer for the first
non-hex byte; found at 0 or a value beyond u64 is the chunk-size error
(`from_str_radix` fails on an empty string and on overflow); an all-hex
buffer of at least `2 * size_of::<u64>() * 2 = 32` bytes is the same error
(`index = -1`); otherwise refill to 32 bytes (EOF is the partial-file
error) and rescan.  On success the digits are consumed and the parsed size
returned (the caller stores it as `Extension(size)`). -/
def readChunkSizeAux : Nat → List Nat → List Nat →
    Except HttpErr (Nat × List Nat × List Nat)
  | 0, _, _ => .error .unexpectedEofErr
  | fuel + 1, buffer, stream =>
    match listPosition (fun x => !isHexDigitByte x) buffer with
    | some i =>
      if i = 0 then .error .chunkTooLarge
      else if hexValue (buffer.take i) ≤ u64Max then
        .ok (hexValue (buffer.take i), buffer.drop i, stream)
      else .error .chunkTooLarge
    | none =>
      if 32 ≤ buffer.length then .error .chunkTooLarge
      else if stream.isEmpty then .error .unexpectedEofErr
      else
        readChunkSizeAux fuel (buffer ++ stream.take (32 - buffer.length))
          (stream.drop (32 - buffer.length))

def readChunkSize (buffer stream : List Nat) :
    Except HttpErr (Nat × List Nat × List Nat) :=
  readChunkSizeAux (stream.length + 1) buffer stream

/-- `Body::read_until_newline`: find an LF in the buffer and consume
through it; otherwise discard the buffer (the skipped bytes are extension
or trailer bytes), refill by `amount` (EOF is the partial-file error),
then double `amount` and clamp it up to the reader capacity. -/
def readUntilNewlineAux : Nat → List Nat → List Nat → Nat → Nat →
    Except HttpErr (List Nat × List Nat)
  | 0, _, _, _, _ => .error .unexpectedEofErr
  | fuel + 1, buffer, stream, amount, cap =>
    match listPosition (fun x => x == 10) buffer with
    | some i => .ok (buffer.drop (i + 1), stream)
    | none =>
      if stream.isEmpty then .error .unexpectedEofErr
      else
        readUntilNewlineAux fuel (stream.take amount) (stream.drop amount)
          (max (amount * 2) cap) cap

def readUntilNewline (buffer stream : List Nat) (cap : Nat) :
    Except HttpErr (List Nat × List Nat) :=
  readUntilNewlineAux (stream.length + 1) buffer stream 32 cap

structure BodyState where
  buffer : List Nat
  stream : List Nat
  transfer : Transfer
deriving DecidableEq, Repr

/-- `Body::read_bytes`: drain buffered input when present, otherwise read
the inner stream directly (a raw read delivers up to the requested count;
zero only at EOF).  Returns the bytes delivered and the new reader state. -/
def readBytes (buffer stream : List Nat) (n : Nat) :
    List Nat × List Nat × List Nat :=
  if 0 < buffer.length then (buffer.take n, buffer.drop n, stream)
  else (stream.take n, [], stream.drop n)

/-- `ChunkedState::Data` arm of `read_chunks`: deliver up to
`min(buf.len(), remaining)` bytes, zero is the partial-file error; when the
chunk is drained move to `Trailer`. -/
def chunkData (remaining : Nat) (buffer stream : List Nat) (bufCap : Nat) :
    Except HttpErr (Nat × BodyState) :=
  let r := readBytes buffer stream (min bufCap remaining)
  if r.1.length = 0 then .error .unexpectedEofErr
  else
    .ok (r.1.length, ⟨r.2.1, r.2.2,
      if remaining - r.1.length = 0 then .chunks .trailer
      else .chunks (.data (remaining - r.1.length))⟩)

/-- Continuation of the `read_chunks` loop after a size line was parsed:
`read_until_newline` skips the extension bytes; size zero moves to
`Trailers` and the loop exits with 0 bytes, otherwise `Data(size)` runs. -/
def afterExtension (size : Nat) (buffer stream : List Nat)
    (cap bufCap : Nat) : Except HttpErr (Nat × BodyState) :=
  match readUntilNewline buffer stream cap with
  | .error e => .error e
  | .ok (b, s) =>
    if size = 0 then .ok (0, ⟨b, s, .trailers⟩)
    else chunkData size b s bufCap

/-- `read_chunks` from the `Size` state. -/
def fromSize (buffer stream : List Nat) (cap bufCap : Nat) :
    Except HttpErr (Nat × BodyState) :=
  match readChunkSize buffer stream with
  | .error e => .error e
  | .ok (v, b, s) => afterExtension v b s cap bufCap

/-- `read_chunks` from the `Trailer` state: skip the CRLF after a data
chunk, then the next size line. -/
def fromTrailer (buffer stream : List Nat) (cap bufCap : Nat) :
    Except HttpErr (Nat × BodyState) :=
  match readUntilNewline buffer stream cap with
  | .error e => .error e
  | .ok (b, s) => fromSize b s cap bufCap

/-- `Body::read_chunks`: the loop visits at most
`Trailer → Size → Extension → Data`, returning read bytes from `Data` and
0 when the zero-size chunk moved the transfer to `Trailers`. -/
def readChunks (st : ChunkedState) (buffer stream : List Nat)
    (cap bufCap : Nat) : Except HttpErr (Nat × BodyState) :=
  match st with
  | .size => fromSize buffer stream cap bufCap
  | .extension n => afterExtension n buffer stream cap bufCap
  | .data n => chunkData n buffer stream bufCap
  | .trailer => fromTrailer buffer stream cap bufCap

/-- `Body::async_read` (the `Read` impl): `Empty` and `Trailers` return
`Ok(0)` immediately; `Chunks` runs the chunked decoder; `Connection`
forwards a read and becomes `Empty` at EOF; `Length` counts down and
treats a zero read before completion as the partial-file error. -/
def asyncRead (b : BodyState) (cap bufCap : Nat) :
    Except HttpErr (Nat × BodyState) :=
  match b.transfer with
  | .empty => .ok (0, b)
  | .trailers => .ok (0, b)
  | .chunks st => readChunks st b.buffer b.stream cap bufCap
  | .connection =>
    let r := readBytes b.buffer b.stream bufCap
    .ok (r.1.length, ⟨r.2.1, r.2.2,
      if r.1.length = 0 then .empty else .connection⟩)
  | .length remaining =>
    let r := readBytes b.buffer b.stream (min bufCap remaining)
    if r.1.length = 0 then .error .unexpectedEofErr
    else
      .ok (r.1.length, ⟨r.2.1, r.2.2,
        if remaining - r.1.length = 0 then .empty
        else .length (remaining - r.1.length)⟩)

/-- Claim C10: a read on a body whose transfer state is `Empty` or
`Trailers` returns `Ok(0)` without touching the underlying stream and
leaves the transfer state and the buffered input unchanged. -/
theorem async_read_past_end_noop (b : BodyState) (cap bufCap : Nat)
    (h : b.transfer = .empty ∨ b.transfer = .trailers) :
    asyncRead b cap bufCap = .ok (0, b) := by
  obtain ⟨buffer, stream, t⟩ := b
  rcases h with h | h <;> (simp only at h; subst h; rfl)

theorem async_read_past_end_noop_witness :
    asyncRead ⟨[1, 2], [3, 4], .empty⟩ 8 4 = .ok (0, ⟨[1, 2], [3, 4], .empty⟩)
    := async_read_past_end_noop ⟨[1, 2], [3, 4], .empty⟩ 8 4 (Or.inl rfl)

theorem takeWhile_append_position {q : Nat → Bool} :
    ∀ (l r : List Nat) (i : Nat),
      listPosition (fun x => !q x) l = some i →
      (l ++ r).takeWhile q = l.take i := by
  intro l
  induction l with
  | nil => intro r i h; simp [listPosition] at h
  | cons a l ih =>
    intro r i h
    by_cases hqa : q a
    · rw [listPosition, if_neg (by simp [hqa])] at h
      obtain ⟨j, hj, rfl⟩ := Option.map_eq_some'.mp h
      simp [List.takeWhile_cons, hqa, ih r j hj]
    · rw [listPosition, if_pos (by simp [hqa])] at h
      cases h
      simp only [List.cons_append, List.takeWhile_cons, List.take_zero]
      rw [if_neg hqa]

theorem takeWhile_append_position_none {q : Nat → Bool} :
    ∀ (l r : List Nat), listPosition (fun x => !q x) l = none →
      (l ++ r).takeWhile q = l ++ r.takeWhile q := by
  intro l
  induction l with
  | nil => intro r _; rfl
  | cons a l ih =>
    intro r h
    by_cases hqa : q a
    · rw [listPosition, if_neg (by simp [hqa]), Option.map_eq_none'] at h
      simp only [List.cons_append, List.takeWhile_cons, hqa, if_pos]
      rw [ih r h]
    · rw [listPosition, if_pos (by simp [hqa])] at h
      cases h

theorem readChunkSizeAux_chunkTooLarge :
    ∀ (fuel : Nat) (buffer stream : List Nat),
      readChunkSizeAux fuel buffer stream = .error .chunkTooLarge →
      ((buffer ++ stream).takeWhile isHexDigitByte = [] ∨
       u64Max < hexValue ((buffer ++ stream).takeWhile isHexDigitByte) ∨
       32 ≤ ((buffer ++ stream).takeWhile isHexDigitByte).length) := by
  intro fuel
  induction fuel with
  | zero => intro buffer stream h; simp [readChunkSizeAux] at h
  | succ fuel ih =>
    intro buffer stream h
    rw [readChunkSizeAux] at h
    cases hpos : listPosition (fun x => !isHexDigitByte x) buffer with
    | some i =>
      rw [hpos] at h
      dsimp only at h
      split_ifs at h with h0 hmax
      · left
        rw [takeWhile_append_position buffer stream i hpos, h0, List.take_zero]
      · right; left
        rw [takeWhile_append_position buffer stream i hpos]
        omega
    | none =>
      rw [hpos] at h
      dsimp only at h
      split_ifs at h with h32 hemp
      · right; right
        rw [takeWhile_append_position_none buffer stream hpos]
        simp only [List.length_append]
        omega
      · simp at h
      · have := ih _ _ h
        rwa [List.append_assoc, List.take_append_drop] at this

/-- Claim C8 counterexample: the claim says the chunk-size parser returns
`ChunkTooLarge` only when the hex value on the size line exceeds the u64
range.  A size line consisting of 32 ASCII zero digits (value 0, well
within range) makes the scan loop hit the 32-byte all-hex bound
(`index = -1`) and fail with the same chunk-size error. -/
theorem chunk_size_error_without_overflow :
    readChunkSize [] (List.replicate 32 48) = .error .chunkTooLarge ∧
    hexValue ((List.replicate 32 48).takeWhile isHexDigitByte) = 0 := by
  constructor
  · rfl
  · rfl

/-- Claim C8 amended: a chunk-size line whose hex digits encode exactly
u64::MAX is accepted, and `ChunkTooLarge` is returned only when the leading
hex-digit run of the input is empty (`from_str_radix` on an empty string),
when its value exceeds the u64 range, or when it reaches the scanner's
32-byte bound without a terminating non-hex byte. -/
theorem chunk_size_bounds :
    (readChunkSize [] (List.replicate 16 102 ++ [13, 10]) =
      .ok (u64Max, [13, 10], [])) ∧
    (∀ buffer stream,
      readChunkSize buffer stream = .error .chunkTooLarge →
      ((buffer ++ stream).takeWhile isHexDigitByte = [] ∨
       u64Max < hexValue ((buffer ++ stream).takeWhile isHexDigitByte) ∨
       32 ≤ ((buffer ++ stream).takeWhile isHexDigitByte).length)) := by
  constructor
  · rfl
  · intro buffer stream h
    exact readChunkSizeAux_chunkTooLarge _ buffer stream h

theorem chunk_size_bounds_witness :
    ([] ++ List.replicate 32 48).takeWhile isHexDigitByte = [] ∨
    u64Max < hexValue (([] ++ List.replicate 32 48).takeWhile isHexDigitByte) ∨
    32 ≤ (([] ++ List.replicate 32 48).takeWhile isHexDigitByte).length :=
  chunk_size_bounds.2 [] (List.replicate 32 48) (by rfl)

/-! ## HTTP response head parsing (src/http/transfer.rs) -/

/-- A UTF-8 continuation byte. -/
def isCont (b : Nat) : Bool := 0x80 ≤ b && b ≤ 0xbf

/-- Validity per Rust `str::from_utf8` (RFC 3629: no overlongs, no
surrogates, max U+10FFFF). -/
def utf8Valid : List Nat → Bool
  | [] => true
  | b :: rest =>
    if b ≤ 0x7f then utf8Valid rest
    else if 0xc2 ≤ b && b ≤ 0xdf then
      match rest with
      | c1 :: rest2 => isCont c1 && utf8Valid rest2
      | _ => false
    else if b = 0xe0 then
      match rest with
      | c1 :: c2 :: rest2 =>
        (0xa0 ≤ c1 && c1 ≤ 0xbf) && isCont c2 && utf8Valid rest2
      | _ => false
    else if (0xe1 ≤ b && b ≤ 0xec) || b = 0xee || b = 0xef then
      match rest with
      | c1 :: c2 :: rest2 => isCont c1 && isCont c2 && utf8Valid rest2
      | _ => false
    else if b = 0xed then
      match rest with
      | c1 :: c2 :: rest2 =>
        (0x80 ≤ c1 && c1 ≤ 0x9f) && isCont c2 && utf8Valid rest2
      | _ => false
    else if b = 0xf0 then
      match rest with
      | c1 :: c2 :: c3 :: rest2 =>
        (0x90 ≤ c1 && c1 ≤ 0xbf) && isCont c2 && isCont c3 && utf8Valid rest2
      | _ => false
    else if 0xf1 ≤ b && b ≤ 0xf3 then
      match rest with
      | c1 :: c2 :: c3 :: rest2 =>
        isCont c1 && isCont c2 && isCont c3 && utf8Valid rest2
      | _ => false
    else if b = 0xf4 then
      match rest with
      | c1 :: c2 :: c3 :: rest2 =>
        (0x80 ≤ c1 && c1 ≤ 0x8f) && isCont c2 && isCont c3 && utf8Valid rest2
      | _ => false
    else false

/-- Strip one trailing CR (`strip_suffix('\r')` after the LF was cut). -/
def stripCr (l : List Nat) : List Nat :=
  if l.getLast? = some 13 then l.dropLast else l

/-- `read_line_in_place`: scan buffered bytes for an LF, refilling as
needed.  The line (UTF-8 checked, LF cut, one trailing CR stripped) and the
offset to consume are returned; with no LF within the reader capacity the
buffer fills up and the fill of 0 at `offset == capacity` is
`HeadersTooLong`, while a true EOF is `UnexpectedEof`. -/
def readLineInPlace (input : List Nat) (cap : Nat) :
    Except HttpErr (List Nat × Nat) :=
  match listPosition (fun x => x == 10) input with
  | some i =>
    if i + 1 ≤ cap then
      if utf8Valid (input.take (i + 1)) then .ok (stripCr (input.take i), i + 1)
      else .error .invalidUtf8
    else .error .headersTooLong
  | none =>
    if cap ≤ input.length then .error .headersTooLong
    else .error .unexpectedEofErr

/-- `Version::from_u32` restricted to the declared variants 9, 10, 11, 20,
30. -/
def versionFromU32 (n : Nat) : Option Nat :=
  if n = 9 ∨ n = 10 ∨ n = 11 ∨ n = 20 ∨ n = 30 then some n else none

/-- `parse_version`: an 8-byte token with a dot at index 6 and decimal
digits at indices 5 and 7 (the first five bytes are not inspected here; the
caller has already matched the stream prefix against HTTP/). -/
def parseVersion (v : List Nat) : Option Nat :=
  match v with
  | [_, _, _, _, _, d1, dot, d2] =>
    if dot = 46 ∧ (48 ≤ d1 ∧ d1 ≤ 57) ∧ (48 ≤ d2 ∧ d2 ≤ 57) then
      versionFromU32 ((d1 - 48) * 10 + (d2 - 48))
    else none
  | _ => none

/-- Rust `str::split(sep)` at the byte level (the separators used are
ASCII). -/
def splitOnByte (sep : Nat) : List Nat → List (List Nat)
  | [] => [[]]
  | b :: rest =>
    let r := splitOnByte sep rest
    if b = sep then [] :: r
    else
      match r with
      | h :: t => (b :: h) :: t
      | [] => [[b]]

/-- `StatusCode::from_str` of the http crate: exactly three decimal digits,
value in 100..=999. -/
def statusFromBytes (s : List Nat) : Option Nat :=
  match s with
  | [a, b, c] =>
    if (48 ≤ a ∧ a ≤ 57) ∧ (48 ≤ b ∧ b ≤ 57) ∧ (48 ≤ c ∧ c ≤ 57) then
      let v := (a - 48) * 100 + (b - 48) * 10 + (c - 48)
      if 100 ≤ v ∧ v ≤ 999 then some v else none
    else none
  | _ => none

/-- `parse_status_line`: split on spaces, first token is the version,
second the status code, anything further (the reason phrase) is ignored. -/
def parseStatusLine (line : List Nat) : Option (Nat × Nat) :=
  match splitOnByte 32 line with
  | v :: rest =>
    match parseVersion v with
    | none => none
    | some ver =>
      match rest with
      | s :: _ => (statusFromBytes s).map fun st => (ver, st)
      | [] => none
  | [] => none

def isWsByte (b : Nat) : Bool :=
  b = 32 || b = 9 || b = 10 || b = 13 || b = 11 || b = 12

def trimBytes (l : List Nat) : List Nat :=
  ((l.dropWhile isWsByte).reverse.dropWhile isWsByte).reverse

def trimStartBytes (l : List Nat) : List Nat := l.dropWhile isWsByte

/-- A valid header-name byte of the http crate, mapped to its lowercase
form. -/
def headerNameByteLower (b : Nat) : Option Nat :=
  if 97 ≤ b ∧ b ≤ 122 then some b
  else if 65 ≤ b ∧ b ≤ 90 then some (b + 32)
  else if 48 ≤ b ∧ b ≤ 57 then some b
  else if b = 33 ∨ b = 35 ∨ b = 36 ∨ b = 37 ∨ b = 38 ∨ b = 39 ∨ b = 42 ∨
      b = 43 ∨ b = 45 ∨ b = 46 ∨ b = 94 ∨ b = 95 ∨ b = 96 ∨ b = 124 ∨
      b = 126 then some b
  else none

/-- `HeaderName::try_from`: non-empty, every byte valid, lowercased. -/
def tryIntoName (bs : List Nat) : Option (List Nat) :=
  if bs = [] then none else bs.mapM headerNameByteLower

/-- `HeaderValue::try_from`: visible ASCII and obs-text, plus tab. -/
def tryIntoValue (bs : List Nat) : Option (List Nat) :=
  if bs.all (fun b => (32 ≤ b && decide (b ≠ 127)) || b == 9) then some bs
  else none

/-- `str::split_once(sep)`. -/
def splitOnceByte (sep : Nat) (l : List Nat) : Option (List Nat × List Nat) :=
  match listPosition (fun x => x == sep) l with
  | some i => some (l.take i, l.drop (i + 1))
  | none => none

/-- `read_header_line_limited`: read one line; an empty line yields `none`;
otherwise split at the first colon (a line with no colon keeps the whole
line as the name and `none` as the value), trim and validate the name, trim
the value's start and validate it, then consume the line.  Returns the
parsed header with the consumed byte count, and the remaining input. -/
def readHeaderLineLimited (input : List Nat) (cap : Nat) :
    Except HttpErr (Option ((List Nat × Option (List Nat)) × Nat) × List Nat)
    :=
  match readLineInPlace input cap with
  | .error e => .error e
  | .ok (line, offset) =>
    if line = [] then .ok (none, input.drop offset)
    else
      let kv := match splitOnceByte 58 line with
        | some (k, v) => (k, some v)
        | none => (line, none)
      match tryIntoName (trimBytes kv.1) with
      | none => .error .invalidHeaderName
      | some key =>
        match kv.2 with
        | some v =>
          match tryIntoValue (trimStartBytes v) with
          | none => .error .invalidHeaderValue
          | some val => .ok (some ((key, some val), offset), input.drop offset)
        | none => .ok (some ((key, none), offset), input.drop offset)

/-- `HeaderMap::insert`: replace any previous value for the name. -/
def insertHeader (hs : List (List Nat × List Nat)) (k v : List Nat) :
    List (List Nat × List Nat) :=
  hs.filter (fun p => p.1 ≠ k) ++ [(k, v)]

/-- `read_headers_limited`: read header lines until the empty line,
deducting each line's consumed bytes from `size_limit`
(`checked_sub` failure is `HeadersTooLong`); a missing colon stores an
empty value with a warning.  Returns the headers, the remaining budget and
the remaining input. -/
def readHeadersLimitedAux : Nat → List Nat → List (List Nat × List Nat) →
    Nat → Nat →
    Except HttpErr (List (List Nat × List Nat) × Nat × List Nat)
  | 0, _, _, _, _ => .error .unexpectedEofErr
  | fuel + 1, input, headers, sizeLimit, cap =>
    match readHeaderLineLimited input cap with
    | .error e => .error e
    | .ok (none, rest) => .ok (headers, sizeLimit, rest)
    | .ok (some ((key, val), read), rest) =>
      if read ≤ sizeLimit then
        readHeadersLimitedAux fuel rest
          (insertHeader headers key (val.getD [])) (sizeLimit - read) cap
      else .error .headersTooLong

def readHeadersLimited (input : List Nat)
    (headers : List (List Nat × List Nat)) (sizeLimit cap : Nat) :
    Except HttpErr (List (List Nat × List Nat) × Nat × List Nat) :=
  readHeadersLimitedAux (input.length + 1) input headers sizeLimit cap

structure ParsedResponse where
  status : Nat
  version : Nat
  headers : List (List Nat × List Nat)
  counted : Nat
  rest : List Nat
deriving DecidableEq, Repr

/-- `parse_response`: peek five bytes (EOF before that is an error); a
stream not starting with HTTP/ is HTTP/0.9 with status 200 and no headers;
otherwise parse the status line, reject versions outside
`[min_version, max_version]`, and read the header block against the
remaining `maximum_header_size` budget (a status line alone above the
budget is `HeadersTooLong`).  `counted` is the byte count the source
tracks: the status-line offset added to `total_size` plus the bytes
deducted from the header budget (the terminating blank line is not
deducted). -/
def parseResponse (input : List Nat) (minV maxV maxHeaderSize cap : Nat) :
    Except HttpErr ParsedResponse :=
  if input.length < 5 then .error .unexpectedEofErr
  else if input.take 5 ≠ [72, 84, 84, 80, 47] then
    if 9 < minV ∨ maxV < 9 then .error (.unexpectedVersion 9)
    else .ok ⟨200, 9, [], 0, input⟩
  else
    match readLineInPlace input cap with
    | .error e => .error e
    | .ok (line, offset) =>
      match parseStatusLine line with
      | none => .error .invalidStatusLine
      | some (version, status) =>
        if version < minV ∨ maxV < version then
          .error (.unexpectedVersion version)
        else if version = 9 then .ok ⟨status, 9, [], offset, input.drop offset⟩
        else if offset ≤ maxHeaderSize then
          match readHeadersLimited (input.drop offset) [] (maxHeaderSize - offset) cap with
          | .error e => .error e
          | .ok (headers, finalLimit, rest) =>
            .ok ⟨status, version, headers,
              offset + (maxHeaderSize - offset - finalLimit), rest⟩
        else .error .headersTooLong

/-- Claim C5 counterexample: the claim bounds the consumed status-line and
header bytes by `maximum_header_size` for every parsed response, but the
HTTP/0.9 early return sits before the budget check: a stream
`HTTP/0.9 200\n` parsed with `min_version = Http09` and
`maximum_header_size = 5` consumes its 13-byte status line and still
returns Ok. -/
theorem parse_09_status_line_unbudgeted :
    parseResponse [72, 84, 84, 80, 47, 48, 46, 57, 32, 50, 48, 48, 10]
        9 11 5 8192 =
      .ok ⟨200, 9, [], 13, []⟩ ∧ 5 < 13 := by
  exact ⟨rfl, by norm_num⟩

/-- Claim C5 amended: for every response parsed as HTTP/1.x (both HTTP/0.9
paths return before the budget accounting), the bytes consumed for the
status line plus all header lines are at most `maximum_header_size`, and
whenever the next header line would exceed the remaining budget the parse
fails with `HeadersTooLong`. -/
theorem response_head_within_limit :
    (∀ input minV maxV maxHeaderSize cap r,
      parseResponse input minV maxV maxHeaderSize cap = .ok r →
      r.version ≠ 9 →
      r.counted ≤ maxHeaderSize) ∧
    (∀ input headers sizeLimit cap key val read rest,
      readHeaderLineLimited input cap = .ok (some ((key, val), read), rest) →
      sizeLimit < read →
      readHeadersLimited input headers sizeLimit cap =
        .error .headersTooLong) := by
  constructor
  · intro input minV maxV maxHeaderSize cap r h hv
    unfold parseResponse at h
    split_ifs at h with h1 h2 h3
    · exact absurd (congrArg ParsedResponse.version
        (Except.ok.inj h)).symm hv
    · cases hline : readLineInPlace input cap with
      | error e => rw [hline] at h; simp at h
      | ok lo =>
        obtain ⟨line, offset⟩ := lo
        rw [hline] at h
        dsimp only at h
        cases hsl : parseStatusLine line with
        | none => rw [hsl] at h; simp at h
        | some vs =>
          obtain ⟨version, status⟩ := vs
          rw [hsl] at h
          dsimp only at h
          split_ifs at h with hb h9 hoff
          · exact absurd (congrArg ParsedResponse.version
              (Except.ok.inj h)).symm hv
          · cases hrh : readHeadersLimited (input.drop offset) []
                (maxHeaderSize - offset) cap with
            | error e => rw [hrh] at h; simp at h
            | ok hfr =>
              obtain ⟨hs, fl, rest⟩ := hfr
              rw [hrh] at h
              dsimp only at h
              rw [← Except.ok.inj h]
              dsimp only
              omega
  · intro input headers sizeLimit cap key val read rest h hlt
    unfold readHeadersLimited
    rw [readHeadersLimitedAux, h]
    dsimp only
    rw [if_neg (by omega)]

theorem response_head_within_limit_witness :
    (⟨200, 11, [], 17, []⟩ : ParsedResponse).counted ≤ 131072 ∧
    readHeadersLimited [97, 58, 32, 98, 13, 10, 13, 10] [] 3 8192 =
      .error .headersTooLong := by
  constructor
  · exact response_head_within_limit.1
      [72, 84, 84, 80, 47, 49, 46, 49, 32, 50, 48, 48, 32, 79, 75, 13, 10,
       13, 10] 10 11 131072 8192 ⟨200, 11, [], 17, []⟩ (by rfl) (by norm_num)
  · exact response_head_within_limit.2 [97, 58, 32, 98, 13, 10, 13, 10] [] 3
      8192 [97] (some [98]) 6 [13, 10] (by rfl) (by norm_num)

/-! ## HTTP transfer redirect loop (src/http/transfer.rs, `transfer`) -/

structure Url where
  scheme : List Char
  rest : List Char
deriving DecidableEq, Repr

/-- What one loop iteration observes of a parsed response: its status, its
`Location` header, and the three headers `Body::new` consults. -/
structure OracleResponse where
  status : Nat
  location : Option (List Char)
  te : Option (List Char)
  cl : Option (List Char)
  conn : Option (List Char)
deriving DecidableEq, Repr

/-- `StatusCode::is_redirection`: 300..=399. -/
def isRedirection (status : Nat) : Bool := 300 ≤ status && status < 400

/-- The redirect loop of `transfer`: each iteration opens a connection,
sends the request and parses the head (modelled as taking the next element
of an oracle list of responses; an exhausted oracle is a connect error).
A 3xx with a `Location` header while `redirects_remaining > 0` decrements
the counter, constructs the response body (errors propagate), resolves the
location against the current URL via the url crate's `join` (passed as a
function; `None` is `InvalidRedirectUrl`), rejects a scheme change with
`RedirectForbidden`, and loops on the new URL; anything else is returned
together with the URL in effect. -/
def transferLoop (join : Url → List Char → Option Url) (method : String)
    (reqScheme : List Char) :
    List OracleResponse → Url → Nat → Except HttpErr (OracleResponse × Url)
  | [], _, _ => .error .noConnection
  | r :: rs, url, remaining =>
    if 0 < remaining ∧ isRedirection r.status then
      match r.location with
      | some loc =>
        match bodyNew method r.status r.te r.cl r.conn with
        | .error e => .error e
        | .ok _ =>
          match join url loc with
          | none => .error .invalidRedirectUrl
          | some newUrl =>
            if newUrl.scheme ≠ reqScheme then .error .redirectForbidden
            else transferLoop join method reqScheme rs newUrl (remaining - 1)
      | none => .ok (r, url)
    else .ok (r, url)

/-- Claim C6: with `follow_redirect = N`, the loop follows exactly N
redirects and returns the (N+1)th redirect response itself: if the first
N+1 responses are all 3xx carrying a Location that resolves within the
original scheme (and their bodies construct), the loop's result is response
index N (having consumed exactly the N before it). -/
theorem redirect_loop_follows_n (join : Url → List Char → Option Url)
    (method : String) (reqScheme : List Char) :
    ∀ (N : Nat) (rs : List OracleResponse) (url : Url) (hN : N < rs.length),
      (∀ u loc, ∃ u2, join u loc = some u2 ∧ u2.scheme = reqScheme) →
      (∀ i (hi : i < rs.length), i ≤ N →
        isRedirection (rs.get ⟨i, hi⟩).status = true ∧
        (rs.get ⟨i, hi⟩).location ≠ none ∧
        ∃ tb, bodyNew method (rs.get ⟨i, hi⟩).status (rs.get ⟨i, hi⟩).te
          (rs.get ⟨i, hi⟩).cl (rs.get ⟨i, hi⟩).conn = .ok tb) →
      Except.map Prod.fst (transferLoop join method reqScheme rs url N) =
        .ok (rs.get ⟨N, hN⟩) := by
  intro N
  induction N with
  | zero =>
    intro rs url hN hjoin hok
    cases rs with
    | nil => simp at hN
    | cons r rs =>
      rw [transferLoop, if_neg (by simp)]
      rfl
  | succ N ih =>
    intro rs url hN hjoin hok
    cases rs with
    | nil => simp at hN
    | cons r rs =>
      obtain ⟨hred, hloc, tb, hbody⟩ := hok 0 (by simp) (by omega)
      have hred2 : isRedirection r.status = true := hred
      have hloc2 : r.location ≠ none := hloc
      have hbody2 : bodyNew method r.status r.te r.cl r.conn = .ok tb := hbody
      rw [transferLoop, if_pos ⟨by omega, hred2⟩]
      cases hl : r.location with
      | none => exact absurd hl hloc2
      | some loc =>
        dsimp only
        rw [hbody2]
        dsimp only
        obtain ⟨u2, hu2, hscheme⟩ := hjoin url loc
        rw [hu2]
        dsimp only
        rw [if_neg (by simp [hscheme])]
        have hN2 : N < rs.length := by
          simpa [Nat.succ_lt_succ_iff] using hN
        have := ih rs u2 hN2 hjoin
          (fun i hi hle => hok (i + 1) (by simpa using Nat.succ_lt_succ hi)
            (by omega))
        simpa using this

theorem redirect_loop_follows_n_witness :
    Except.map Prod.fst
      (transferLoop (fun _ _ => some ⟨['h'], []⟩) "GET" ['h']
        [⟨301, some ['x'], none, none, none⟩,
         ⟨302, some ['y'], none, none, none⟩,
         ⟨303, some ['z'], none, none, none⟩]
        ⟨['h'], []⟩ 2) =
      .ok (⟨303, some ['z'], none, none, none⟩ : OracleResponse) :=
  redirect_loop_follows_n (fun _ _ => some ⟨['h'], []⟩) "GET" ['h'] 2
    [⟨301, some ['x'], none, none, none⟩,
     ⟨302, some ['y'], none, none, none⟩,
     ⟨303, some ['z'], none, none, none⟩]
    ⟨['h'], []⟩ (by norm_num)
    (fun u loc => ⟨⟨['h'], []⟩, rfl, rfl⟩)
    (fun i hi hle => by
      match i, hi with
      | 0, _ => exact ⟨rfl, by simp, ⟨(.connection, false), rfl⟩⟩
      | 1, _ => exact ⟨rfl, by simp, ⟨(.connection, false), rfl⟩⟩
      | 2, _ => exact ⟨rfl, by simp, ⟨(.connection, false), rfl⟩⟩)

/-! ## TLS application write (src/tls/conn.rs, `TlsConn::tls_write`) -/

inductive TlsErr where
  | interrupted
  | other
deriving DecidableEq, Repr

/-- The inner `while self.tls.wants_write()` loop of `tls_write`: while
`pending` TLS records remain, push one to the socket (`write_tls`, results
drawn from the `sends` oracle; exhaustion is a transport error); a push of
zero means the peer closed and the caller returns `Ok(wrote)` early (the
`false` result); after each successful push `check_interrupt_if_zero(wrote)`
runs.  That xx_core helper is modelled from the spec: honor cancellation
only when nothing has been written yet, so it returns the cancellation
error exactly when `wrote == 0` and the task is cancelled. -/
def flushRecords (interrupted : Bool) (wrote : Nat) :
    Nat → List (Except TlsErr Nat) →
    Except TlsErr (Bool × List (Except TlsErr Nat))
  | 0, sends => .ok (true, sends)
  | pending + 1, sends =>
    match sends with
    | [] => .error .other
    | s :: sends =>
      match s with
      | .error e => .error e
      | .ok 0 => .ok (false, sends)
      | .ok (_ + 1) =>
        if wrote = 0 ∧ interrupted then .error .interrupted
        else flushRecords interrupted wrote pending sends

/-- `TlsConn::tls_write`: each outer iteration writes plaintext into the
rustls writer (the `accepts` oracle yields the accepted byte count and the
number of TLS records this leaves pending), flushes pending records, and
returns `Ok(wrote)` on a short or complete flush with `wrote != 0`; a zero
`wrote` loops to write again. -/
def tlsWrite (interrupted : Bool) :
    List (Except TlsErr (Nat × Nat)) → List (Except TlsErr Nat) →
    Except TlsErr Nat
  | [], _ => .error .other
  | a :: accepts, sends =>
    match a with
    | .error e => .error e
    | .ok (wrote, records) =>
      match flushRecords interrupted wrote records sends with
      | .error e => .error e
      | .ok (false, _) => .ok wrote
      | .ok (true, sends2) =>
        if wrote ≠ 0 then .ok wrote
        else tlsWrite interrupted accepts sends2

theorem flushRecords_no_interrupt (i : Bool) (w : Nat) :
    ∀ (p : Nat) (sends : List (Except TlsErr Nat)),
      0 < w → (∀ y ∈ sends, y ≠ .error .interrupted) →
      ∀ e, flushRecords i w p sends = .error e → e ≠ .interrupted := by
  intro p
  induction p with
  | zero => intro sends _ _ e h; simp [flushRecords] at h
  | succ p ih =>
    intro sends hw hs e h
    cases sends with
    | nil =>
      rw [flushRecords] at h
      cases h
      simp
    | cons s sends =>
      cases s with
      | error e2 =>
        rw [flushRecords] at h
        cases h
        intro heq
        subst heq
        exact hs _ (by simp) rfl
      | ok n =>
        cases n with
        | zero =>
          rw [flushRecords] at h
          simp at h
        | succ n =>
          rw [flushRecords, if_neg (by omega)] at h
          exact ih sends hw (fun y hy => hs y (List.mem_cons_of_mem _ hy)) e h

theorem flushRecords_subset (i : Bool) (w : Nat) :
    ∀ (p : Nat) (sends sends2 : List (Except TlsErr Nat)) (b : Bool),
      flushRecords i w p sends = .ok (b, sends2) →
      ∀ y ∈ sends2, y ∈ sends := by
  intro p
  induction p with
  | zero =>
    intro sends sends2 b h
    rw [flushRecords] at h
    cases h
    exact fun y hy => hy
  | succ p ih =>
    intro sends sends2 b h
    cases sends with
    | nil => rw [flushRecords] at h; cases h
    | cons s sends =>
      cases s with
      | error e2 => rw [flushRecords] at h; cases h
      | ok n =>
        cases n with
        | zero =>
          rw [flushRecords] at h
          cases h
          exact fun y hy => List.mem_cons_of_mem _ hy
        | succ n =>
          rw [flushRecords] at h
          split_ifs at h
          exact fun y hy => List.mem_cons_of_mem _ (ih sends sends2 b h y hy)

theorem flushRecords_interrupt (i : Bool) (w : Nat) :
    ∀ (p : Nat) (sends : List (Except TlsErr Nat)),
      (∀ y ∈ sends, y ≠ .error .interrupted) →
      flushRecords i w p sends = .error .interrupted →
      i = true ∧ w = 0 := by
  intro p
  induction p with
  | zero => intro sends _ h; simp [flushRecords] at h
  | succ p ih =>
    intro sends hs h
    cases sends with
    | nil => rw [flushRecords] at h; cases h
    | cons s sends =>
      cases s with
      | error e2 =>
        rw [flushRecords] at h
        cases h
        exact absurd rfl (hs _ (by simp))
      | ok n =>
        cases n with
        | zero => rw [flushRecords] at h; simp at h
        | succ n =>
          by_cases hc : w = 0 ∧ i = true
          · exact ⟨hc.2, hc.1⟩
          · rw [flushRecords, if_neg (by tauto)] at h
            exact ih sends (fun y hy => hs y (List.mem_cons_of_mem _ hy)) h

/-- Claim C9: `tls_write` observes cancellation only while zero plaintext
bytes have been accepted by the TLS writer.  With oracles that never
produce the cancellation error themselves (cancellation surfaces through
`check_interrupt_if_zero`), a cancellation result implies the task was
cancelled (and, by `flushRecords_interrupt`, a zero `wrote`); and whenever
the current plaintext write accepted `w > 0` bytes the call never returns
the cancellation error and any count it returns is exactly `w`. -/
theorem tls_write_cancel_only_before_progress (interrupted : Bool)
    (accepts : List (Except TlsErr (Nat × Nat)))
    (sends : List (Except TlsErr Nat))
    (hacc : ∀ x ∈ accepts, x ≠ .error .interrupted)
    (hsend : ∀ y ∈ sends, y ≠ .error .interrupted) :
    (tlsWrite interrupted accepts sends = .error .interrupted →
      interrupted = true) ∧
    (∀ w records rest, accepts = .ok (w, records) :: rest → 0 < w →
      tlsWrite interrupted accepts sends ≠ .error .interrupted ∧
      ∀ n, tlsWrite interrupted accepts sends = .ok n → n = w) := by
  constructor
  · induction accepts generalizing sends with
    | nil =>
      intro h
      rw [tlsWrite] at h
      cases h
    | cons a accepts ih =>
      intro h
      cases a with
      | error e =>
        rw [tlsWrite] at h
        cases h
        exact absurd rfl (hacc _ (by simp))
      | ok wr =>
        obtain ⟨w, records⟩ := wr
        rw [tlsWrite] at h
        cases hf : flushRecords interrupted w records sends with
        | error e =>
          rw [hf] at h
          cases h
          exact (flushRecords_interrupt interrupted w records sends hsend
            hf).1
        | ok bs =>
          obtain ⟨b, sends2⟩ := bs
          rw [hf] at h
          cases b with
          | false => simp at h
          | true =>
            dsimp only at h
            split_ifs at h
            exact ih sends2
              (fun x hx => hacc x (List.mem_cons_of_mem _ hx))
              (fun y hy => hsend y
                (flushRecords_subset interrupted w records sends sends2
                  true hf y hy)) h
  · rintro w records rest rfl hw
    rw [tlsWrite]
    cases hf : flushRecords interrupted w records sends with
    | error e =>
      have hne := flushRecords_no_interrupt interrupted w records sends hw
        hsend e hf
      dsimp only
      exact ⟨fun h => hne (Except.error.inj h), fun n h => Except.noConfusion h⟩
    | ok bs =>
      obtain ⟨b, sends2⟩ := bs
      cases b with
      | false =>
        dsimp only
        exact ⟨fun h => Except.noConfusion h, fun n h => (Except.ok.inj h).symm⟩
      | true =>
        dsimp only
        rw [if_pos (by omega)]
        exact ⟨fun h => Except.noConfusion h, fun n h => (Except.ok.inj h).symm⟩

theorem tls_write_cancel_witness :
    tlsWrite true [.ok (5, 1)] [.ok 3] ≠ .error .interrupted ∧
    tlsWrite true [.ok (5, 1)] [.ok 3] = .ok 5 := by
  constructor
  · exact ((tls_write_cancel_only_before_progress true [.ok (5, 1)] [.ok 3]
      (by simp) (by simp)).2 5 1 [] rfl (by norm_num)).1
  · rfl
